import Mathlib

/-!
Shallow embedding of the repository-state reconciliation engine of
`src/RepositoryStateManager.ts` (class `RepositoryStateManager`).

Modelling conventions:
* JavaScript `Map` objects are modelled as association lists
  (`List (κ × β)`) with JS `Map` semantics: `jget` returns the first
  binding, `jset` replaces in place (keeping the position of the first
  insertion) or appends, `jdel` removes the binding.  Iteration order of
  `Map.forEach` is insertion order, matched by folding over the list.
* `vscode.Uri` values are modelled by the inductive `PUri`: the code only
  ever builds `Uri.parse("perforce:" + p)`, `Uri.parse("perforce-shelved:" + p)`
  and `Uri.file(localPath)`, and compares their `toString()` renderings,
  which are injective across these three shapes.
* Decoded tagged records (`any[]` from the marshal parser) are modelled by
  `PData` / `PVal`: a top-level value is either a proper array of records
  or some non-array value (`scalar`); a record is either an object with
  string fields or a non-object.  JS truthiness on a string field
  (missing or empty ⇒ falsy) is `truthyF`; `??` (nullish coalescing,
  which keeps empty strings) is `getF ... |>.getD ...`.
* Asynchronous collaborators (`PerforceService.execute`,
  `PerforceService.getLocalPath`) are an oracle `P4Env`; a rejected
  promise is `Except.error`.  Fields `date` and `jobs` of changelists are
  omitted: they are wall-clock data never consulted by the engine.
-/

set_option autoImplicit false

universe u v

/-- JS `Map.get`: first binding of the key, if any. -/
def jget {κ : Type u} {β : Type v} [DecidableEq κ] : List (κ × β) → κ → Option β
  | [], _ => none
  | (k', v) :: t, k => if k' = k then some v else jget t k

/-- JS `Map.set`: replace the existing binding in place, else append. -/
def jset {κ : Type u} {β : Type v} [DecidableEq κ] : List (κ × β) → κ → β → List (κ × β)
  | [], k, v => [(k, v)]
  | (k', v') :: t, k, v => if k' = k then (k, v) :: t else (k', v') :: jset t k v

/-- JS `Map.delete`: remove the binding of the key. -/
def jdel {κ : Type u} {β : Type v} [DecidableEq κ] (m : List (κ × β)) (k : κ) : List (κ × β) :=
  m.filter (fun e => e.1 ≠ k)

/-- JS `Map.keys()` as a list. -/
def jkeys {κ : Type u} {β : Type v} (m : List (κ × β)) : List κ :=
  m.map (·.1)

/-- JS `Set.add`: append the element unless already present. -/
def insertSet {κ : Type u} [DecidableEq κ] (l : List κ) (k : κ) : List κ :=
  if k ∈ l then l else l ++ [k]

/-- `[...new Set(l)]`: deduplicate keeping first occurrences in order. -/
def dedupFirst {κ : Type u} [DecidableEq κ] (l : List κ) : List κ :=
  l.foldl insertSet []

/-- The `vscode.Uri` values built by the engine, identified (as the code
does) by their `toString()` rendering: `Uri.parse("perforce:" + p)`,
`Uri.parse("perforce-shelved:" + p)` and `Uri.file(lp)`. -/
inductive PUri : Type where
  | perforce (p : String)
  | shelved (p : String)
  | file (p : String)
  deriving DecidableEq

/-- Interface `P4File` of `RepositoryStateManager.ts`.  Optional fields of
the TS interface are `Option`; `status` is `Option` because
`parseDescribeOutput` copies a possibly-missing `action` field into it. -/
structure P4File : Type where
  uri : PUri
  depotPath : String
  clientPath : String
  localPath : Option String
  status : Option String
  action : Option String
  changelist : String
  revision : Option String
  headRevision : Option String
  haveRevision : Option String
  type : Option String
  user : Option String
  client : Option String
  diffStatus : Option String
  isShelved : Option Bool
  shelvedInChangelist : Option String
  deriving DecidableEq

/-- Interface `P4Changelist` (without the unobservable `date`/`jobs`). -/
structure P4Changelist : Type where
  id : String
  description : String
  user : String
  client : String
  status : String
  files : List P4File
  hasShelvedFiles : Option Bool
  isRestricted : Option Bool
  deriving DecidableEq

/-- The `P4Options` the manager consults (`P4USER`, `P4CLIENT`). -/
structure P4Options : Type where
  P4USER : Option String
  P4CLIENT : Option String
  deriving DecidableEq

/-- A decoded record: a JS object with string-valued fields, or any
non-object value (the `typeof record !== 'object' || record === null`
branch of the parsers). -/
inductive PVal : Type where
  | scalar
  | obj (fields : List (String × String))
  deriving DecidableEq

/-- Top-level decoded command output: an array of records or any
non-array value (the `!Array.isArray(p4Data)` branch). -/
inductive PData : Type where
  | scalar
  | arr (elems : List PVal)
  deriving DecidableEq

/-- Field access `record.f` on an object record: `none` is JS `undefined`. -/
def getF (fields : List (String × String)) (k : String) : Option String :=
  jget fields k

/-- Truthy field access: JS `record.f` used as a condition — a missing or
empty string is falsy. -/
def truthyF (fields : List (String × String)) (k : String) : Option String :=
  match getF fields k with
  | some s => if s = "" then none else some s
  | none => none

/-- `needle` is a prefix of `hay` (character lists). -/
def hasPfx : List Char → List Char → Bool
  | _, [] => true
  | [], _ :: _ => false
  | a :: as, b :: bs => a = b && hasPfx as bs

/-- JS `hay.includes(needle)` on strings. -/
def hasSub : List Char → List Char → Bool
  | [], needle => needle.isEmpty
  | a :: t, needle => hasPfx (a :: t) needle || hasSub t needle

/-- JS `String.prototype.includes`. -/
def strIncl (hay needle : String) : Bool :=
  hasSub hay.data needle.data

/-- One record of `parseOpenedOutput` (`RepositoryStateManager.ts:295-328`):
skips non-objects, records without truthy `depotFile`/`action`, and records
without truthy `clientFile`; otherwise builds the `P4File`.  Note the
placeholder URI uses field `depotPath` — which the `p4 opened` shape does
not carry (the depot path arrives in `depotFile`) — so the template
literal renders `undefined`. -/
def openedRecordToFile (r : PVal) : Option P4File :=
  match r with
  | .scalar => none
  | .obj fs =>
    match truthyF fs "depotFile", truthyF fs "action" with
    | some depotFile, some action =>
      match truthyF fs "clientFile" with
      | none => none
      | some clientPath =>
        some
          { uri := .perforce ((getF fs "depotPath").getD "undefined")
            depotPath := depotFile
            clientPath := clientPath
            localPath := none
            status := some action
            action := some action
            changelist := (getF fs "change").getD "default"
            revision := (truthyF fs "rev").map (fun v => "#" ++ v)
            headRevision := (truthyF fs "headRev").map (fun v => "#" ++ v)
            haveRevision := (truthyF fs "haveRev").map (fun v => "#" ++ v)
            type := getF fs "type"
            user := getF fs "user"
            client := getF fs "client"
            diffStatus := none
            isShelved := none
            shelvedInChangelist := none }
    | _, _ => none

/-- `parseOpenedOutput` (`RepositoryStateManager.ts:286-331`): throws on a
non-array top level, otherwise keeps the records that pass the guards. -/
def parseOpenedOutput : PData → Except String (List P4File)
  | .scalar => .error "Invalid data format received from p4 opened -G"
  | .arr recs => .ok (recs.filterMap openedRecordToFile)

/-- One record of `parseStatusOutput` (`RepositoryStateManager.ts:441-510`).
The placeholder path prefers a truthy `clientFile` and falls back to
`depotFile` (`pathForUri = clientFile || depotFile`). -/
def statusRecordToFile (r : PVal) : Option P4File :=
  match r with
  | .scalar => none
  | .obj fs =>
    if (truthyF fs "clientFile").isNone ∧ (truthyF fs "depotFile").isNone then none
    else
      match (truthyF fs "clientFile").or (truthyF fs "depotFile") with
      | none => none
      | some pathForUri =>
        let effectiveStatus := (getF fs "status").getD "unknown"
        let a0 := (getF fs "action").getD "unknown"
        let a1 := if effectiveStatus = "modifiedNotOpened" then "modify-local" else a0
        let a2 := if effectiveStatus = "needsAdd" then "add-local" else a1
        let a3 := if effectiveStatus = "needsDelete" then "delete-local" else a2
        some
          { uri := .perforce pathForUri
            depotPath := (getF fs "depotFile").getD ""
            clientPath := (getF fs "clientFile").getD ""
            localPath := none
            status := some effectiveStatus
            action := some a3
            changelist := (getF fs "change").getD ((getF fs "otherChange").getD "default")
            revision := (truthyF fs "rev").map (fun v => "#" ++ v)
            headRevision := (truthyF fs "headRev").map (fun v => "#" ++ v)
            haveRevision := (truthyF fs "haveRev").map (fun v => "#" ++ v)
            type := getF fs "type"
            user := (getF fs "user").or (getF fs "otherUser")
            client := (getF fs "client").or (getF fs "otherClient")
            diffStatus := if strIncl effectiveStatus "Resolve" then some "unresolved" else none
            isShelved := some (decide (getF fs "isShelved" = some "1"))
            shelvedInChangelist := none }

/-- `parseStatusOutput` (`RepositoryStateManager.ts:432-513`). -/
def parseStatusOutput : PData → Except String (List P4File)
  | .scalar => .error "Invalid data format received from p4 status -G"
  | .arr recs => .ok (recs.filterMap statusRecordToFile)

/-- One record of `parseChangesOutput` (`RepositoryStateManager.ts:342-376`). -/
def changesRecordToCl (r : PVal) : Option P4Changelist :=
  match r with
  | .scalar => none
  | .obj fs =>
    match truthyF fs "change", truthyF fs "desc" with
    | some change, some desc =>
      some
        { id := change
          description := desc.trim
          user := (getF fs "user").getD "unknown"
          client := (getF fs "client").getD "unknown"
          status :=
            if getF fs "status" = some "pending" ∨ getF fs "status" = some "submitted" ∨
                getF fs "status" = some "shelved" then
              (getF fs "status").getD "pending"
            else "pending"
          files := []
          hasShelvedFiles := some (decide (getF fs "shelved" = some "1"))
          isRestricted := (getF fs "changeType").map (fun ct => strIncl ct "restricted") }
    | _, _ => none

/-- `parseChangesOutput` (`RepositoryStateManager.ts:333-379`). -/
def parseChangesOutput : PData → Except String (List P4Changelist)
  | .scalar => .error "Invalid data format received from p4 changes -G"
  | .arr recs => .ok (recs.filterMap changesRecordToCl)

/-- The indexed-field scan of `parseDescribeOutput`
(`RepositoryStateManager.ts:394-426`): iterate `depotFile0`, `depotFile1`, …
until the first index whose `depotFile` field is falsy.  The fuel argument
only bounds the scan; `fields.length + 1` steps always reach the gap, since
`k` consecutive truthy indexed keys occupy `k` distinct entries. -/
def describeLoop (clId : String) (fs : List (String × String)) : Nat → Nat → List P4File
  | 0, _ => []
  | fuel + 1, i =>
    match truthyF fs ("depotFile" ++ toString i) with
    | none => []
    | some depotPath =>
      { uri := .shelved depotPath
        depotPath := depotPath
        clientPath := (getF fs ("clientFile" ++ toString i)).getD ""
        localPath := none
        status := getF fs ("action" ++ toString i)
        action := getF fs ("action" ++ toString i)
        changelist := clId
        revision := (truthyF fs ("rev" ++ toString i)).map (fun v => "#" ++ v)
        headRevision := none
        haveRevision := none
        type := getF fs ("type" ++ toString i)
        user := none
        client := none
        diffStatus := none
        isShelved := some true
        shelvedInChangelist := some clId } :: describeLoop clId fs fuel (i + 1)

/-- `parseDescribeOutput` (`RepositoryStateManager.ts:381-430`): a bad
top-level shape returns an empty list (it does not throw). -/
def parseDescribeOutput (d : PData) (clId : String) : Except String (List P4File) :=
  match d with
  | .scalar => .ok []
  | .arr [] => .ok []
  | .arr (first :: _) =>
    match first with
    | .scalar => .ok []
    | .obj fs => .ok (describeLoop clId fs (fs.length + 1) 0)

/-- `processP4Result` (`RepositoryStateManager.ts:264-282`): if the result
carried parsed output, run the parser and degrade a parse failure to an
empty list (with a log line); a result without parsed output contributes
nothing. -/
def processP4Result {T : Type} (r : Option PData) (parse : PData → Except String (List T)) :
    List T :=
  match r with
  | some d =>
    match parse d with
    | .ok xs => xs
    | .error _ => []
  | none => []

/-- The status-merge step of `updateState` (`RepositoryStateManager.ts:87-110`):
for an existing placeholder key, `status`/`action`/`diffStatus` come from
the status record; `depotPath`/`clientPath` fill in when currently empty
(`||`); the remaining fields fill in when currently `undefined` (`??`);
`changelist` is untouched.  A new key inserts the status file as is. -/
def mergeStatusFile (m : List (PUri × P4File)) (sf : P4File) : List (PUri × P4File) :=
  match jget m sf.uri with
  | some ex =>
    jset m sf.uri
      { ex with
        status := sf.status
        action := sf.action
        diffStatus := sf.diffStatus
        depotPath := if ex.depotPath = "" then sf.depotPath else ex.depotPath
        clientPath := if ex.clientPath = "" then sf.clientPath else ex.clientPath
        user := ex.user.or sf.user
        client := ex.client.or sf.client
        revision := ex.revision.or sf.revision
        headRevision := ex.headRevision.or sf.headRevision
        haveRevision := ex.haveRevision.or sf.haveRevision
        type := ex.type.or sf.type }
  | none => jset m sf.uri sf

/-- The shelved-merge step of `updateState` (`RepositoryStateManager.ts:139-152`). -/
def mergeShelvedFile (m : List (PUri × P4File)) (sf : P4File) : List (PUri × P4File) :=
  match jget m sf.uri with
  | some ex =>
    jset m sf.uri { ex with isShelved := some true, shelvedInChangelist := some sf.changelist }
  | none => jset m sf.uri sf

/-- `getLocalPath` wrapped by the per-path `try`/`catch` of
`resolveFileUris` (`RepositoryStateManager.ts:706-715`): an error resolves
to `null`. -/
def catchResolve (r : String → Except String (Option String)) (cp : String) : Option String :=
  match r cp with
  | .ok l => l
  | .error _ => none

/-- The unique nonempty client paths of the files, in first-occurrence
order (`RepositoryStateManager.ts:690-696`). -/
def ucpOfFiles (fs : List P4File) : List String :=
  dedupFirst ((fs.map (·.clientPath)).filter (fun cp => cp ≠ ""))

/-- `ucpOfFiles` over the values of the file map. -/
def ucpOf (m : List (PUri × P4File)) : List String :=
  ucpOfFiles (m.map (·.2))

/-- The `resolvedPathMap` of `resolveFileUris`
(`RepositoryStateManager.ts:717-719`): one (caught) resolution per unique
client path. -/
def buildRPM (r : String → Except String (Option String)) (ucp : List String) :
    List (String × Option String) :=
  ucp.foldl (fun m cp => jset m cp (catchResolve r cp)) []

/-- JS truthiness of `resolvedPathMap.get(cp)`: `undefined`, `null` and
the empty string are all falsy. -/
def jsTruthy : Option (Option String) → Option String
  | some (some s) => if s = "" then none else some s
  | _ => none

/-- The outcome `resolveFileUris` computes for one file: the truthy local
path, or `none` when the client path is empty or resolution failed. -/
def resOf (rpm : List (String × Option String)) (f : P4File) : Option String :=
  if f.clientPath = "" then none else jsTruthy (jget rpm f.clientPath)

/-- State of the rewrite loop of `resolveFileUris`. -/
structure RLoop : Type where
  files : List (PUri × P4File)
  rkeys : List PUri
  unres : List PUri
  deriving DecidableEq

/-- The per-file loop of `resolveFileUris` (`RepositoryStateManager.ts:727-773`):
an empty client path, a failed resolution, or a local path whose resolved
key was already claimed marks the old key unresolved; otherwise the entry
migrates from its placeholder key to the resolved `file:` key. -/
def resolveLoop (rpm : List (String × Option String)) :
    List P4File → RLoop → RLoop
  | [], st => st
  | f :: rest, st =>
    if f.clientPath = "" then
      resolveLoop rpm rest { st with unres := st.unres ++ [f.uri] }
    else
      match jsTruthy (jget rpm f.clientPath) with
      | some localPath =>
        if PUri.file localPath ∈ st.rkeys ∧ f.uri ≠ PUri.file localPath then
          resolveLoop rpm rest { st with unres := st.unres ++ [f.uri] }
        else
          if f.uri ≠ PUri.file localPath then
            resolveLoop rpm rest
              { st with
                files :=
                  jset (jdel st.files f.uri) (PUri.file localPath)
                    { f with localPath := some localPath, uri := PUri.file localPath }
                rkeys := insertSet st.rkeys (PUri.file localPath) }
          else
            resolveLoop rpm rest
              { st with
                files :=
                  jset st.files f.uri
                    { f with localPath := some localPath, uri := PUri.file localPath }
                rkeys := insertSet st.rkeys f.uri }
      | none =>
        resolveLoop rpm rest { st with unres := st.unres ++ [f.uri] }

/-- The trailing removal pass of `resolveFileUris`
(`RepositoryStateManager.ts:776-778`). -/
def finalizeResolve (st : RLoop) : List (PUri × P4File) :=
  st.unres.foldl (fun m k => jdel m k) st.files

/-- `resolveFileUris` (`RepositoryStateManager.ts:687-781`), parameterised by
the `getLocalPath` oracle.  With no nonempty client path it returns early,
leaving the map untouched. -/
def resolveFileUris (r : String → Except String (Option String))
    (files : List (PUri × P4File)) : List (PUri × P4File) :=
  let ucp := ucpOf files
  if ucp.isEmpty then files
  else
    finalizeResolve
      (resolveLoop (buildRPM r ucp) (files.map (·.2)) { files := files, rkeys := [], unres := [] })

/-- `ensureDefaultChangelist` (`RepositoryStateManager.ts:243-261`). -/
def ensureDefaultChangelist (opts : P4Options) (cls : List (String × P4Changelist)) :
    List (String × P4Changelist) :=
  match jget cls "default" with
  | none =>
    jset cls "default"
      { id := "default"
        description := "Default changelist"
        user := opts.P4USER.getD "unknown"
        client := opts.P4CLIENT.getD "unknown"
        status := "pending"
        files := []
        hasShelvedFiles := none
        isRestricted := none }
  | some d => jset cls "default" { d with files := [] }

/-- Output of `updateChangelists`: the updated map and the set of
changelist ids seen in the `p4 changes` result. -/
structure UpdClOut : Type where
  cls : List (String × P4Changelist)
  keys : List String
  deriving DecidableEq

/-- `updateChangelists` (`RepositoryStateManager.ts:570-596`): existing
entries are updated in place with an empty file list, new entries are
inserted; every id is recorded. -/
def updateChangelists (cls : List (String × P4Changelist)) (newChanges : List P4Changelist) :
    UpdClOut :=
  newChanges.foldl
    (fun st c =>
      let keys := insertSet st.keys c.id
      match jget st.cls c.id with
      | some ex =>
        { cls :=
            jset st.cls c.id
              { ex with
                description := c.description
                user := c.user
                client := c.client
                status := c.status
                hasShelvedFiles := c.hasShelvedFiles
                isRestricted := c.isRestricted
                files := [] }
          keys := keys }
      | none => { cls := jset st.cls c.id c, keys := keys })
    { cls := cls, keys := [] }

/-- State of the re-association pass: the changelist map, the set of ids
protected from pruning, and the ids for which a placeholder was
synthesized. -/
structure ReassocOut : Type where
  cls : List (String × P4Changelist)
  keys : List String
  synth : List String
  deriving DecidableEq

/-- One file of the re-association pass (`RepositoryStateManager.ts:159-182`):
a file whose changelist id has no entry synthesizes a placeholder
(status `"pending"`, description defaulted from the id) and protects the
id from pruning; then the file joins the changelist's file list unless a
file with the same URI is already in it. -/
def reassocStep (opts : P4Options) (st : ReassocOut) (file : P4File) : ReassocOut :=
  let changeId := file.changelist
  match jget st.cls changeId with
  | some c =>
    let c' :=
      if c.files.any (fun g => g.uri = file.uri) then c else { c with files := c.files ++ [file] }
    { st with cls := jset st.cls changeId c' }
  | none =>
    let ph : P4Changelist :=
      { id := changeId
        description := "Changelist " ++ changeId
        user := (file.user.or opts.P4USER).getD "unknown"
        client := (file.client.or opts.P4CLIENT).getD "unknown"
        status := "pending"
        files := [file]
        hasShelvedFiles := none
        isRestricted := none }
    { cls := jset st.cls changeId ph
      keys := insertSet st.keys changeId
      synth := st.synth ++ [changeId] }

/-- The full re-association pass over the surviving files, in map order. -/
def reassociate (opts : P4Options) (fs : List P4File) (cls : List (String × P4Changelist))
    (keys : List String) : ReassocOut :=
  fs.foldl (reassocStep opts) { cls := cls, keys := keys, synth := [] }

/-- The pruning pass (`RepositoryStateManager.ts:186-191`): delete every
previously known non-default id that was not observed this cycle. -/
def pruneChangelists (prevKeys currKeys : List String) (cls : List (String × P4Changelist)) :
    List (String × P4Changelist) :=
  prevKeys.foldl (fun m k => if k ∈ currKeys then m else jdel m k) cls

/-- The store at some point of a cycle (used as the payload of an aborted
cycle: the `catch` of `updateState` leaves whatever the cycle had reached). -/
structure StoreSnap : Type where
  files : List (PUri × P4File)
  changelists : List (String × P4Changelist)
  deriving DecidableEq

/-- A successful cycle's outcome, with the observations the claims are
about. -/
structure CycleOk : Type where
  files : List (PUri × P4File)
  changelists : List (String × P4Changelist)
  beforePrune : List (String × P4Changelist)
  queryIds : List String
  synthIds : List String
  currKeys : List String
  deriving DecidableEq

/-- The oracle for the collaborators a cycle consults: the three primary
queries, the per-changelist `describe` query and `getLocalPath`.  A
`CommandFailed` rejection is `Except.error`; a fulfilled result carries
`parsedOutput` when present. -/
structure P4Env : Type where
  opened : Except String (Option PData)
  status : Except String (Option PData)
  changes : Except String (Option PData)
  describe : String → Except String (Option PData)
  getLocalPath : String → Except String (Option String)

/-- The shelved-file fan-out (`RepositoryStateManager.ts:123-137`): for every
pending changelist flagged `hasShelvedFiles`, fetch and parse its
description, degrading a failure of that one query to no records. -/
def fetchShelved (env : P4Env) (cls : List (String × P4Changelist)) : List P4File :=
  (cls.map (fun e =>
    if e.2.hasShelvedFiles = some true ∧ e.2.status = "pending" then
      match env.describe e.2.id with
      | .error _ => []
      | .ok rd => processP4Result rd (fun d => parseDescribeOutput d e.2.id)
    else [])).flatten

/-- The file map after the opened-insert phase (`RepositoryStateManager.ts:79-81`). -/
def cycleFiles1 (ro : Option PData) : List (PUri × P4File) :=
  (processP4Result ro parseOpenedOutput).foldl (fun m f => jset m f.uri f) []

/-- The file map after the status-merge phase (`RepositoryStateManager.ts:83-110`). -/
def cycleFiles2 (ro rs : Option PData) : List (PUri × P4File) :=
  (processP4Result rs parseStatusOutput).foldl mergeStatusFile (cycleFiles1 ro)

/-- The changelist update of step 5 (`RepositoryStateManager.ts:114-120`). -/
def cycleUpd (cls0 : List (String × P4Changelist)) (rc : Option PData) : UpdClOut :=
  updateChangelists cls0 (processP4Result rc parseChangesOutput)

/-- The file map after the shelved-merge and path-resolution phases
(`RepositoryStateManager.ts:122-155`). -/
def cycleFiles4 (env : P4Env) (cls0 : List (String × P4Changelist))
    (ro rs rc : Option PData) : List (PUri × P4File) :=
  resolveFileUris env.getLocalPath
    ((fetchShelved env (cycleUpd cls0 rc).cls).foldl mergeShelvedFile (cycleFiles2 ro rs))

/-- The re-association pass of step 8 (`RepositoryStateManager.ts:157-182`),
run on the resolved file map. -/
def cycleRa (opts : P4Options) (env : P4Env) (cls0 : List (String × P4Changelist))
    (ro rs rc : Option PData) : ReassocOut :=
  reassociate opts ((cycleFiles4 env cls0 ro rs rc).map (·.2)) (cycleUpd cls0 rc).cls
    (cycleUpd cls0 rc).keys

/-- The outcome of a cycle in which all three primary queries succeeded. -/
def cycleSuccess (opts : P4Options) (env : P4Env) (cls0 : List (String × P4Changelist))
    (prevKeys : List String) (ro rs rc : Option PData) : CycleOk :=
  { files := cycleFiles4 env cls0 ro rs rc
    changelists :=
      pruneChangelists prevKeys (cycleRa opts env cls0 ro rs rc).keys
        (cycleRa opts env cls0 ro rs rc).cls
    beforePrune := (cycleRa opts env cls0 ro rs rc).cls
    queryIds := (cycleUpd cls0 rc).keys
    synthIds := (cycleRa opts env cls0 ro rs rc).synth
    currKeys := (cycleRa opts env cls0 ro rs rc).keys }

/-- The `try` body of `updateState` (`RepositoryStateManager.ts:76-195`),
started on the prepared store: the three primary queries abort the cycle
(carrying the store as it stood); everything else runs to completion. -/
def runCycle (opts : P4Options) (env : P4Env) (cls0 : List (String × P4Changelist))
    (prevKeys : List String) : Except StoreSnap CycleOk :=
  match env.opened with
  | .error _ => .error { files := [], changelists := cls0 }
  | .ok ro =>
    match env.status with
    | .error _ => .error { files := cycleFiles1 ro, changelists := cls0 }
    | .ok rs =>
      match env.changes with
      | .error _ => .error { files := cycleFiles2 ro rs, changelists := cls0 }
      | .ok rc => .ok (cycleSuccess opts env cls0 prevKeys ro rs rc)

/-- The store plus the single-flight flag (`isUpdating`). -/
structure RepoState : Type where
  files : List (PUri × P4File)
  changelists : List (String × P4Changelist)
  isUpdating : Bool
  deriving DecidableEq

/-- The observable outcome of one `updateState` call: the resulting state,
whether `onDidChange` fired, and — on a completed cycle — the trace of the
cycle's observations. -/
structure UpdateOut : Type where
  state : RepoState
  fired : Bool
  trace : Option CycleOk

/-- The preparation step of `updateState` (`RepositoryStateManager.ts:68-74`):
reset every changelist's file list and ensure a default changelist. -/
def prepCls (opts : P4Options) (cls : List (String × P4Changelist)) :
    List (String × P4Changelist) :=
  ensureDefaultChangelist opts (cls.map (fun e => (e.1, { e.2 with files := [] })))

/-- The snapshot of previously known non-default changelist ids
(`RepositoryStateManager.ts:65-66`). -/
def prevKeysOf (s : RepoState) : List String :=
  (jkeys s.changelists).filter (fun k => k ≠ "default")

/-- `updateState` (`RepositoryStateManager.ts:56-207`): single-flight guard,
snapshot of previously known non-default ids, preparation, the guarded
cycle, and the `catch`/`finally` that keep the partial store, skip the
notification and return to idle on failure. -/
def updateStateT (opts : P4Options) (env : P4Env) (s : RepoState) : UpdateOut :=
  if s.isUpdating then { state := s, fired := false, trace := none }
  else
    match runCycle opts env (prepCls opts s.changelists) (prevKeysOf s) with
    | .ok r =>
      { state := { files := r.files, changelists := r.changelists, isUpdating := false }
        fired := true
        trace := some r }
    | .error st =>
      { state := { files := st.files, changelists := st.changelists, isUpdating := false }
        fired := false
        trace := none }

/-! ## Basic lemmas about the JS `Map`/`Set` model -/

theorem jget_jset_self {κ : Type u} {β : Type v} [DecidableEq κ]
    (m : List (κ × β)) (k : κ) (v : β) : jget (jset m k v) k = some v := by
  induction m with
  | nil => simp [jget, jset]
  | cons e t ih =>
    by_cases h : e.1 = k
    · simp [jset, h, jget]
    · simp [jset, h, jget, ih]

theorem jget_jset_ne {κ : Type u} {β : Type v} [DecidableEq κ]
    (m : List (κ × β)) (k k' : κ) (v : β) (h : k' ≠ k) :
    jget (jset m k v) k' = jget m k' := by
  have hk : ¬ k = k' := fun h' => h h'.symm
  induction m with
  | nil => simp [jget, jset, hk]
  | cons e t ih =>
    obtain ⟨ek, ev⟩ := e
    by_cases he : ek = k
    · subst he
      simp [jset, jget, hk]
    · simp [jset, he, jget, ih]

theorem jget_jdel_self {κ : Type u} {β : Type v} [DecidableEq κ]
    (m : List (κ × β)) (k : κ) : jget (jdel m k) k = none := by
  induction m with
  | nil => simp [jget, jdel]
  | cons e t ih =>
    obtain ⟨ek, ev⟩ := e
    by_cases he : ek = k
    · subst he
      simpa [jdel, List.filter_cons] using ih
    · simpa [jdel, List.filter_cons, he, jget] using ih

theorem jget_jdel_ne {κ : Type u} {β : Type v} [DecidableEq κ]
    (m : List (κ × β)) (k k' : κ) (h : k' ≠ k) :
    jget (jdel m k) k' = jget m k' := by
  induction m with
  | nil => simp [jget, jdel]
  | cons e t ih =>
    obtain ⟨ek, ev⟩ := e
    by_cases he : ek = k
    · subst he
      have hk : ¬ ek = k' := fun h' => h h'.symm
      simpa [jdel, List.filter_cons, jget, hk] using ih
    · by_cases he' : ek = k'
      · simp [jdel, List.filter_cons, he, jget, he', h]
      · simpa [jdel, List.filter_cons, he, jget, he'] using ih

theorem jget_eq_some_mem {κ : Type u} {β : Type v} [DecidableEq κ]
    {m : List (κ × β)} {k : κ} {v : β} (h : jget m k = some v) : (k, v) ∈ m := by
  induction m with
  | nil => simp [jget] at h
  | cons e t ih =>
    obtain ⟨ek, ev⟩ := e
    by_cases he : ek = k
    · subst he
      simp [jget] at h
      subst h
      exact List.mem_cons_self _ _
    · simp only [jget, he, if_false, if_neg he] at h
      exact List.mem_cons_of_mem _ (ih h)

theorem jkeys_cons {κ : Type u} {β : Type v} (e : κ × β) (t : List (κ × β)) :
    jkeys (e :: t) = e.1 :: jkeys t := rfl

theorem mem_jkeys_iff_jget {κ : Type u} {β : Type v} [DecidableEq κ]
    (m : List (κ × β)) (k : κ) : k ∈ jkeys m ↔ (jget m k).isSome := by
  induction m with
  | nil => simp [jkeys, jget]
  | cons e t ih =>
    obtain ⟨ek, ev⟩ := e
    by_cases he : ek = k
    · subst he
      simp [jkeys_cons, jget]
    · have hk : ¬ k = ek := fun h' => he h'.symm
      simp [jkeys_cons, jget, he, hk, List.mem_cons, ih]

theorem jget_foldl_jdel {κ : Type u} {β : Type v} [DecidableEq κ]
    (l : List κ) (m : List (κ × β)) (k : κ) :
    jget (l.foldl (fun m' k' => jdel m' k') m) k = if k ∈ l then none else jget m k := by
  induction l generalizing m with
  | nil => simp
  | cons a t ih =>
    by_cases hk : k = a
    · subst hk
      simp only [List.foldl_cons, ih]
      by_cases ht : k ∈ t <;> simp [ht, jget_jdel_self]
    · simp only [List.foldl_cons, ih, List.mem_cons]
      by_cases ht : k ∈ t <;> simp [ht, hk, jget_jdel_ne _ _ _ hk]

theorem foldl_preserves {σ : Type u} {α : Type v} {P : σ → Prop} (f : σ → α → σ)
    (h : ∀ s x, P s → P (f s x)) : ∀ (l : List α) (s : σ), P s → P (l.foldl f s)
  | [], _, hs => hs
  | x :: t, s, hs => foldl_preserves f h t (f s x) (h s x hs)

theorem mem_insertSet {κ : Type u} [DecidableEq κ] (l : List κ) (k x : κ) :
    x ∈ insertSet l k ↔ x ∈ l ∨ x = k := by
  unfold insertSet
  by_cases h : k ∈ l
  · simp only [if_pos h]
    constructor
    · exact Or.inl
    · rintro (hx | rfl)
      · exact hx
      · exact h
  · simp [if_neg h]

theorem nodup_insertSet {κ : Type u} [DecidableEq κ] (l : List κ) (k : κ)
    (h : l.Nodup) : (insertSet l k).Nodup := by
  unfold insertSet
  by_cases hk : k ∈ l
  · simpa [hk]
  · rw [if_neg hk, List.nodup_append]
    refine ⟨h, List.nodup_singleton _, ?_⟩
    intro x hx hx'
    rw [List.mem_singleton] at hx'
    subst hx'
    exact hk hx

theorem mem_dedupFirst {κ : Type u} [DecidableEq κ] (l : List κ) (x : κ) :
    x ∈ dedupFirst l ↔ x ∈ l := by
  have main : ∀ (l acc : List κ), x ∈ l.foldl insertSet acc ↔ x ∈ acc ∨ x ∈ l := by
    intro l
    induction l with
    | nil => simp
    | cons a t ih =>
      intro acc
      rw [List.foldl_cons, ih, mem_insertSet]
      constructor
      · rintro ((hx | rfl) | hx)
        · exact Or.inl hx
        · exact Or.inr (List.mem_cons_self _ _)
        · exact Or.inr (List.mem_cons_of_mem _ hx)
      · rintro (hx | hx)
        · exact Or.inl (Or.inl hx)
        · rcases List.mem_cons.mp hx with rfl | hx
          · exact Or.inl (Or.inr rfl)
          · exact Or.inr hx
  simpa [dedupFirst] using main l []

theorem nodup_dedupFirst {κ : Type u} [DecidableEq κ] (l : List κ) :
    (dedupFirst l).Nodup := by
  have main : ∀ (l acc : List κ), acc.Nodup → (l.foldl insertSet acc).Nodup := by
    intro l
    induction l with
    | nil => exact fun acc h => h
    | cons a t ih => exact fun acc h => ih _ (nodup_insertSet _ _ h)
  exact main l [] List.nodup_nil

theorem count_dedupFirst_eq_one {κ : Type u} [DecidableEq κ] (l : List κ) (x : κ)
    (h : x ∈ l) : (dedupFirst l).count x = 1 :=
  List.count_eq_one_of_mem (nodup_dedupFirst l) ((mem_dedupFirst l x).mpr h)

theorem jget_pruneChangelists (prevKeys currKeys : List String)
    (cls : List (String × P4Changelist)) (id : String) :
    jget (pruneChangelists prevKeys currKeys cls) id =
      if id ∈ prevKeys ∧ id ∉ currKeys then none else jget cls id := by
  induction prevKeys generalizing cls with
  | nil => simp [pruneChangelists]
  | cons a t ih =>
    unfold pruneChangelists at *
    rw [List.foldl_cons]
    by_cases ha : a ∈ currKeys
    · rw [if_pos ha, ih]
      by_cases hid : id ∈ t ∧ id ∉ currKeys
      · simp [hid, List.mem_cons, hid.1]
      · rw [if_neg hid, if_neg]
        rintro ⟨hmem, hnc⟩
        rcases List.mem_cons.mp hmem with rfl | hmem
        · exact hnc ha
        · exact hid ⟨hmem, hnc⟩
    · rw [if_neg ha, ih]
      by_cases hid : id = a
      · subst hid
        by_cases ht : id ∈ t ∧ id ∉ currKeys
        · simp [ht, List.mem_cons, ha]
        · simp [ht, List.mem_cons, ha, jget_jdel_self]
      · by_cases ht : id ∈ t ∧ id ∉ currKeys
        · simp [ht, List.mem_cons, ht.1, ht.2]
        · rw [if_neg ht, jget_jdel_ne _ _ _ hid, if_neg]
          rintro ⟨hmem, hnc⟩
          rcases List.mem_cons.mp hmem with rfl | hmem
          · exact hid rfl
          · exact ht ⟨hmem, hnc⟩

/-! ## Lemmas about `resolveFileUris` -/

/-- Whether a key is a resolved `file:` key. -/
def isFileKey : PUri → Bool
  | .file _ => true
  | _ => false

/-- Every binding of the file map sits under its own placeholder URI. -/
def keyedByUri (m : List (PUri × P4File)) : Prop :=
  ∀ e ∈ m, e.1 = e.2.uri

theorem ne_file_of_not_isFileKey {u : PUri} (h : isFileKey u = false) (lp : String) :
    u ≠ PUri.file lp := by
  cases u <;> simp_all [isFileKey]

theorem keyedByUri_jset {m : List (PUri × P4File)} {k : PUri} {v : P4File}
    (h : keyedByUri m) (hv : k = v.uri) : keyedByUri (jset m k v) := by
  induction m with
  | nil =>
    intro e he
    simp [jset] at he
    subst he
    exact hv
  | cons a t ih =>
    have ha := h a (List.mem_cons_self _ _)
    have ht : keyedByUri t := fun e he => h e (List.mem_cons_of_mem _ he)
    by_cases hk : a.1 = k
    · intro e he
      simp only [jset, hk, if_pos] at he
      rcases List.mem_cons.mp he with rfl | he
      · exact hv
      · exact ht e he
    · intro e he
      simp only [jset, hk, if_neg, not_false_iff] at he
      rcases List.mem_cons.mp he with rfl | he
      · exact ha
      · exact ih ht e he

theorem keyedByUri_jdel {m : List (PUri × P4File)} {k : PUri}
    (h : keyedByUri m) : keyedByUri (jdel m k) :=
  fun e he => h e (List.mem_of_mem_filter he)

theorem nodup_jkeys_jset {κ : Type u} {β : Type v} [DecidableEq κ]
    {m : List (κ × β)} {k : κ} {v : β} (h : (jkeys m).Nodup) :
    (jkeys (jset m k v)).Nodup := by
  induction m with
  | nil => simp [jset, jkeys]
  | cons a t ih =>
    rw [jkeys_cons] at h
    obtain ⟨ha, ht⟩ := List.nodup_cons.mp h
    by_cases hk : a.1 = k
    · subst hk
      simpa [jset, jkeys_cons] using List.nodup_cons.mpr ⟨ha, ht⟩
    · rw [jset, if_neg hk, jkeys_cons]
      refine List.nodup_cons.mpr ⟨?_, ih ht⟩
      intro hmem
      rw [mem_jkeys_iff_jget] at hmem
      rw [jget_jset_ne _ _ _ _ hk] at hmem
      exact ha ((mem_jkeys_iff_jget t a.1).mpr hmem)

theorem nodup_jkeys_jdel {κ : Type u} {β : Type v} [DecidableEq κ]
    {m : List (κ × β)} {k : κ} (h : (jkeys m).Nodup) : (jkeys (jdel m k)).Nodup :=
  h.sublist (List.Sublist.map _ (List.filter_sublist m))

theorem resolveLoop_dead (rpm : List (String × Option String)) :
    ∀ (fs : List P4File) (st : RLoop) (k : PUri),
      isFileKey k = false →
      (∀ g ∈ fs, isFileKey g.uri = false) →
      (k ∈ st.unres ∨ (∃ f ∈ fs, f.uri = k) ∨ jget st.files k = none) →
      jget (finalizeResolve (resolveLoop rpm fs st)) k = none := by
  intro fs
  induction fs with
  | nil =>
    intro st k hk _ hdisj
    rw [resolveLoop, finalizeResolve, jget_foldl_jdel]
    rcases hdisj with hu | hf | hn
    · simp [hu]
    · simp at hf
    · by_cases hmem : k ∈ st.unres
      · simp [hmem]
      · simp [hmem, hn]
  | cons f rest ih =>
    intro st k hk hfs hdisj
    have hfrest : ∀ g ∈ rest, isFileKey g.uri = false :=
      fun g hg => hfs g (List.mem_cons_of_mem _ hg)
    have hffile : isFileKey f.uri = false := hfs f (List.mem_cons_self _ _)
    have hdownU :
        (k ∈ st.unres ∨ (∃ f' ∈ f :: rest, f'.uri = k) ∨ jget st.files k = none) →
        (k ∈ st.unres ++ [f.uri] ∨ (∃ f' ∈ rest, f'.uri = k) ∨ jget st.files k = none) := by
      intro hd
      rcases hd with hu | ⟨f', hf', hfu⟩ | hn
      · exact Or.inl (List.mem_append_left _ hu)
      · rcases List.mem_cons.mp hf' with rfl | hf'
        · exact Or.inl (List.mem_append_right _ (by simp [hfu]))
        · exact Or.inr (Or.inl ⟨f', hf', hfu⟩)
      · exact Or.inr (Or.inr hn)
    rw [resolveLoop]
    by_cases hcp : f.clientPath = ""
    · rw [if_pos hcp]
      exact ih _ k hk hfrest (hdownU hdisj)
    · rw [if_neg hcp]
      cases hres : jsTruthy (jget rpm f.clientPath) with
      | none =>
        simp only [hres]
        exact ih _ k hk hfrest (hdownU hdisj)
      | some lp =>
        simp only [hres]
        by_cases hguard : PUri.file lp ∈ st.rkeys ∧ f.uri ≠ PUri.file lp
        · rw [if_pos hguard]
          exact ih _ k hk hfrest (hdownU hdisj)
        · rw [if_neg hguard]
          have hne : f.uri ≠ PUri.file lp := ne_file_of_not_isFileKey hffile lp
          rw [if_pos hne]
          apply ih _ k hk hfrest
          have hknf : k ≠ PUri.file lp := ne_file_of_not_isFileKey hk lp
          rcases hdisj with hu | ⟨f', hf', hfu⟩ | hn
          · exact Or.inl hu
          · rcases List.mem_cons.mp hf' with rfl | hf'
            · refine Or.inr (Or.inr ?_)
              subst hfu
              rw [jget_jset_ne _ _ _ _ hknf, jget_jdel_self]
            · exact Or.inr (Or.inl ⟨f', hf', hfu⟩)
          · refine Or.inr (Or.inr ?_)
            rw [jget_jset_ne _ _ _ _ hknf]
            by_cases hkf : k = f.uri
            · subst hkf
              exact jget_jdel_self _ _
            · rw [jget_jdel_ne _ _ _ hkf]
              exact hn

theorem resolveLoop_claimed_stable (rpm : List (String × Option String)) :
    ∀ (fs : List P4File) (st : RLoop) (lp : String),
      (∀ g ∈ fs, isFileKey g.uri = false) →
      (∀ u ∈ st.unres, isFileKey u = false) →
      PUri.file lp ∈ st.rkeys →
      jget (finalizeResolve (resolveLoop rpm fs st)) (PUri.file lp) =
        jget st.files (PUri.file lp) := by
  intro fs
  induction fs with
  | nil =>
    intro st lp _ hunres hmem
    rw [resolveLoop, finalizeResolve, jget_foldl_jdel]
    have : PUri.file lp ∉ st.unres := by
      intro hin
      simpa [isFileKey] using hunres _ hin
    simp [this]
  | cons f rest ih =>
    intro st lp hfs hunres hmem
    have hfrest : ∀ g ∈ rest, isFileKey g.uri = false :=
      fun g hg => hfs g (List.mem_cons_of_mem _ hg)
    have hffile : isFileKey f.uri = false := hfs f (List.mem_cons_self _ _)
    have hunres' : ∀ u ∈ st.unres ++ [f.uri], isFileKey u = false := by
      intro u hu
      rcases List.mem_append.mp hu with hu | hu
      · exact hunres u hu
      · rw [List.mem_singleton] at hu
        subst hu
        exact hffile
    rw [resolveLoop]
    by_cases hcp : f.clientPath = ""
    · rw [if_pos hcp]
      exact ih _ lp hfrest hunres' hmem
    · rw [if_neg hcp]
      cases hres : jsTruthy (jget rpm f.clientPath) with
      | none =>
        simp only [hres]
        exact ih _ lp hfrest hunres' hmem
      | some lp' =>
        simp only [hres]
        by_cases hguard : PUri.file lp' ∈ st.rkeys ∧ f.uri ≠ PUri.file lp'
        · rw [if_pos hguard]
          exact ih _ lp hfrest hunres' hmem
        · rw [if_neg hguard]
          have hne : f.uri ≠ PUri.file lp' := ne_file_of_not_isFileKey hffile lp'
          rw [if_pos hne]
          have hlp : lp' ≠ lp := by
            intro heq
            subst heq
            exact hguard ⟨hmem, hne⟩
          have hkey : PUri.file lp ≠ PUri.file lp' := by
            simp only [ne_eq, PUri.file.injEq]
            exact fun h => hlp h.symm
          refine (ih _ lp hfrest ?_ ?_).trans ?_
          · exact hunres
          · rw [mem_insertSet]
            exact Or.inl hmem
          · rw [jget_jset_ne _ _ _ _ hkey,
              jget_jdel_ne _ _ _ (Ne.symm (ne_file_of_not_isFileKey hffile lp))]

theorem resolveLoop_first_winner (rpm : List (String × Option String)) :
    ∀ (fs : List P4File) (st : RLoop) (lp : String),
      (∀ g ∈ fs, isFileKey g.uri = false) →
      (∀ u ∈ st.unres, isFileKey u = false) →
      PUri.file lp ∉ st.rkeys →
      jget st.files (PUri.file lp) = none →
      jget (finalizeResolve (resolveLoop rpm fs st)) (PUri.file lp) =
        (fs.find? (fun f => decide (resOf rpm f = some lp))).map
          (fun f => { f with uri := PUri.file lp, localPath := some lp }) := by
  intro fs
  induction fs with
  | nil =>
    intro st lp _ hunres _ hnone
    rw [resolveLoop, finalizeResolve, jget_foldl_jdel]
    have hni : PUri.file lp ∉ st.unres := by
      intro hin
      simpa [isFileKey] using hunres _ hin
    simp [hni, hnone]
  | cons f rest ih =>
    intro st lp hfs hunres hrk hnone
    have hfrest : ∀ g ∈ rest, isFileKey g.uri = false :=
      fun g hg => hfs g (List.mem_cons_of_mem _ hg)
    have hffile : isFileKey f.uri = false := hfs f (List.mem_cons_self _ _)
    have hunres' : ∀ u ∈ st.unres ++ [f.uri], isFileKey u = false := by
      intro u hu
      rcases List.mem_append.mp hu with hu | hu
      · exact hunres u hu
      · rw [List.mem_singleton] at hu
        subst hu
        exact hffile
    rw [resolveLoop]
    by_cases hcp : f.clientPath = ""
    · rw [if_pos hcp]
      have hpf : resOf rpm f = none := by simp [resOf, hcp]
      rw [List.find?_cons_of_neg _ (by simp [hpf])]
      exact ih _ lp hfrest hunres' hrk hnone
    · rw [if_neg hcp]
      cases hres : jsTruthy (jget rpm f.clientPath) with
      | none =>
        simp only [hres]
        have hpf : resOf rpm f = none := by simp [resOf, hcp, hres]
        rw [List.find?_cons_of_neg _ (by simp [hpf])]
        exact ih _ lp hfrest hunres' hrk hnone
      | some lp' =>
        simp only [hres]
        have hpf : resOf rpm f = some lp' := by simp [resOf, hcp, hres]
        by_cases hguard : PUri.file lp' ∈ st.rkeys ∧ f.uri ≠ PUri.file lp'
        · rw [if_pos hguard]
          have hlp : lp' ≠ lp := by
            intro heq
            subst heq
            exact hrk hguard.1
          rw [List.find?_cons_of_neg _ (by simp [hpf, hlp])]
          exact ih _ lp hfrest hunres' hrk hnone
        · rw [if_neg hguard]
          have hne : f.uri ≠ PUri.file lp' := ne_file_of_not_isFileKey hffile lp'
          rw [if_pos hne]
          by_cases hlp : lp' = lp
          · subst hlp
            rw [List.find?_cons_of_pos _ (by simp [hpf])]
            refine (resolveLoop_claimed_stable rpm rest _ lp' hfrest ?_ ?_).trans ?_
            · exact hunres
            · rw [mem_insertSet]
              exact Or.inr rfl
            · rw [jget_jset_self]
              rfl
          · have hkey : PUri.file lp ≠ PUri.file lp' := by
              simp only [ne_eq, PUri.file.injEq]
              exact fun h => hlp h.symm
            rw [List.find?_cons_of_neg _ (by simp [hpf, hlp])]
            refine ih _ lp hfrest ?_ ?_ ?_
            · exact hunres
            · intro hmem'
              rw [mem_insertSet] at hmem'
              rcases hmem' with h | h
              · exact hrk h
              · exact hkey h
            · rw [jget_jset_ne _ _ _ _ hkey,
                jget_jdel_ne _ _ _ (Ne.symm (ne_file_of_not_isFileKey hffile lp))]
              exact hnone

theorem resolveLoop_wf (rpm : List (String × Option String)) :
    ∀ (fs : List P4File) (st : RLoop),
      keyedByUri st.files → (jkeys st.files).Nodup →
      keyedByUri (finalizeResolve (resolveLoop rpm fs st)) ∧
        (jkeys (finalizeResolve (resolveLoop rpm fs st))).Nodup := by
  have hfin : ∀ (st : RLoop), keyedByUri st.files → (jkeys st.files).Nodup →
      keyedByUri (finalizeResolve st) ∧ (jkeys (finalizeResolve st)).Nodup := by
    intro st
    rw [finalizeResolve]
    generalize st.unres = l
    induction l generalizing st with
    | nil => exact fun h h' => ⟨h, h'⟩
    | cons a t iht =>
      intro hk hn
      rw [List.foldl_cons]
      exact iht { st with files := jdel st.files a }
        (keyedByUri_jdel hk) (nodup_jkeys_jdel hn)
  intro fs
  induction fs with
  | nil => exact fun st hk hn => hfin st hk hn
  | cons f rest ih =>
    intro st hk hn
    rw [resolveLoop]
    by_cases hcp : f.clientPath = ""
    · rw [if_pos hcp]
      exact ih _ hk hn
    · rw [if_neg hcp]
      cases hres : jsTruthy (jget rpm f.clientPath) with
      | none =>
        simp only [hres]
        exact ih _ hk hn
      | some lp =>
        simp only [hres]
        by_cases hguard : PUri.file lp ∈ st.rkeys ∧ f.uri ≠ PUri.file lp
        · rw [if_pos hguard]
          exact ih _ hk hn
        · rw [if_neg hguard]
          by_cases hne : f.uri ≠ PUri.file lp
          · rw [if_pos hne]
            exact ih _
              (keyedByUri_jset (keyedByUri_jdel hk) rfl)
              (nodup_jkeys_jset (nodup_jkeys_jdel hn))
          · rw [if_neg hne]
            push_neg at hne
            exact ih _ (keyedByUri_jset hk (by rw [hne])) (nodup_jkeys_jset hn)

/-- The store invariant the reconciliation cycle maintains on the file
map when `resolveFileUris` runs: entries are keyed by their own URI, keys
are unique primary keys, and no key is a resolved `file:` key yet. -/
def wfStore (m : List (PUri × P4File)) : Prop :=
  keyedByUri m ∧ (jkeys m).Nodup ∧ ∀ e ∈ m, isFileKey e.1 = false

theorem values_nonfile_of_wfStore {m : List (PUri × P4File)} (h : wfStore m) :
    ∀ g ∈ m.map (·.2), isFileKey g.uri = false := by
  intro g hg
  rcases List.mem_map.mp hg with ⟨e, he, rfl⟩
  rw [← h.1 e he]
  exact h.2.2 e he

theorem jget_file_none_of_wfStore {m : List (PUri × P4File)} (h : wfStore m)
    (lp : String) : jget m (PUri.file lp) = none := by
  cases hg : jget m (PUri.file lp) with
  | none => rfl
  | some v =>
    have hmem := jget_eq_some_mem hg
    have := h.2.2 _ hmem
    simp [isFileKey] at this

theorem ucpOf_ne_nil {m : List (PUri × P4File)}
    (h : ∃ e ∈ m, e.2.clientPath ≠ "") : (ucpOf m).isEmpty = false := by
  rcases h with ⟨e, he, hcp⟩
  have hmem : e.2.clientPath ∈ ucpOf m := by
    rw [ucpOf, ucpOfFiles, mem_dedupFirst, List.mem_filter]
    refine ⟨List.mem_map.mpr ⟨e.2, List.mem_map.mpr ⟨e, he, rfl⟩, rfl⟩, by simpa using hcp⟩
  cases hu : ucpOf m with
  | nil => rw [hu] at hmem; simp at hmem
  | cons a t => rfl

theorem resolveFileUris_eq_loop (r : String → Except String (Option String))
    (m : List (PUri × P4File)) (h : ∃ e ∈ m, e.2.clientPath ≠ "") :
    resolveFileUris r m =
      finalizeResolve
        (resolveLoop (buildRPM r (ucpOf m)) (m.map (·.2))
          { files := m, rkeys := [], unres := [] }) := by
  rw [resolveFileUris]
  simp only [ucpOf_ne_nil h, Bool.false_eq_true, if_false]

theorem resolveFileUris_all_empty (r : String → Except String (Option String))
    (m : List (PUri × P4File)) (h : ∀ e ∈ m, e.2.clientPath = "") :
    resolveFileUris r m = m := by
  rw [resolveFileUris]
  have : ucpOf m = [] := by
    rw [ucpOf, ucpOfFiles]
    have : (List.map (fun f => f.clientPath) (m.map (·.2))).filter (fun cp => cp ≠ "") = [] := by
      rw [List.filter_eq_nil_iff]
      intro cp hcp
      rcases List.mem_map.mp hcp with ⟨f, hf, rfl⟩
      rcases List.mem_map.mp hf with ⟨e, he, rfl⟩
      simpa using h e he
    rw [this]
    rfl
  simp [this]

theorem resolveFileUris_old_keys_dead (r : String → Except String (Option String))
    (m : List (PUri × P4File)) (hwf : wfStore m) (hne : ∃ e ∈ m, e.2.clientPath ≠ "")
    (k : PUri) (hk : isFileKey k = false) : jget (resolveFileUris r m) k = none := by
  rw [resolveFileUris_eq_loop r m hne]
  apply resolveLoop_dead _ _ _ _ hk (values_nonfile_of_wfStore hwf)
  cases hg : jget m k with
  | some v =>
    have hmem := jget_eq_some_mem hg
    exact Or.inr (Or.inl ⟨v, List.mem_map.mpr ⟨(k, v), hmem, rfl⟩, (hwf.1 _ hmem).symm⟩)
  | none => exact Or.inr (Or.inr rfl)

theorem resolveFileUris_winner (r : String → Except String (Option String))
    (m : List (PUri × P4File)) (lp : String) (hwf : wfStore m) :
    jget (resolveFileUris r m) (PUri.file lp) =
      ((m.map (·.2)).find? (fun f => decide (resOf (buildRPM r (ucpOf m)) f = some lp))).map
        (fun f => { f with uri := PUri.file lp, localPath := some lp }) := by
  by_cases hne : ∃ e ∈ m, e.2.clientPath ≠ ""
  · rw [resolveFileUris_eq_loop r m hne]
    apply resolveLoop_first_winner _ _ _ _ (values_nonfile_of_wfStore hwf)
    · intro u hu
      simp at hu
    · simp
    · exact jget_file_none_of_wfStore hwf lp
  · push_neg at hne
    rw [resolveFileUris_all_empty r m hne, jget_file_none_of_wfStore hwf lp]
    have hfind :
        (m.map (·.2)).find? (fun f => decide (resOf (buildRPM r (ucpOf m)) f = some lp)) =
          none := by
      rw [List.find?_eq_none]
      intro f hf
      rcases List.mem_map.mp hf with ⟨e, he, rfl⟩
      simp [resOf, hne e he]
    rw [hfind]
    rfl

theorem resolveFileUris_wf (r : String → Except String (Option String))
    (m : List (PUri × P4File)) (hwf : wfStore m) :
    keyedByUri (resolveFileUris r m) ∧ (jkeys (resolveFileUris r m)).Nodup := by
  by_cases hne : ∃ e ∈ m, e.2.clientPath ≠ ""
  · rw [resolveFileUris_eq_loop r m hne]
    exact resolveLoop_wf _ _ _ hwf.1 hwf.2.1
  · push_neg at hne
    rw [resolveFileUris_all_empty r m hne]
    exact ⟨hwf.1, hwf.2.1⟩

theorem length_filter_key_le_one {κ : Type u} {β : Type v} [DecidableEq κ]
    (m : List (κ × β)) (h : (jkeys m).Nodup) (k : κ) :
    (m.filter (fun e => decide (e.1 = k))).length ≤ 1 := by
  induction m with
  | nil => simp
  | cons e t ih =>
    rw [jkeys_cons] at h
    obtain ⟨ha, ht⟩ := List.nodup_cons.mp h
    by_cases hk : e.1 = k
    · subst hk
      have hnil : t.filter (fun e' => decide (e'.1 = e.1)) = [] := by
        rw [List.filter_eq_nil_iff]
        intro e' he'
        simp only [decide_eq_true_eq]
        intro heq
        exact ha (heq ▸ List.mem_map.mpr ⟨e', he', rfl⟩)
      simp [List.filter_cons, hnil]
    · simpa [List.filter_cons, hk] using ih ht

/-! ## Lemmas about the changelist bookkeeping of a cycle -/

theorem isSome_jget_jset {κ : Type u} {β : Type v} [DecidableEq κ]
    (m : List (κ × β)) (k : κ) (v : β) (id : κ) (h : (jget m id).isSome) :
    (jget (jset m k v) id).isSome := by
  by_cases hk : id = k
  · subst hk
    rw [jget_jset_self]
    rfl
  · rw [jget_jset_ne _ _ _ _ hk]
    exact h

theorem jget_map_snd {κ : Type u} {β γ : Type v} [DecidableEq κ]
    (m : List (κ × β)) (g : β → γ) (k : κ) :
    jget (m.map (fun e => (e.1, g e.2))) k = (jget m k).map g := by
  induction m with
  | nil => simp [jget]
  | cons e t ih =>
    by_cases hk : e.1 = k
    · simp [jget, hk]
    · simp [jget, hk, ih]

theorem prepCls_isSome (opts : P4Options) (cls : List (String × P4Changelist)) (id : String)
    (h : (jget cls id).isSome) : (jget (prepCls opts cls) id).isSome := by
  have hmap : jget (cls.map (fun e => (e.1, { e.2 with files := ([] : List P4File) }))) id =
      (jget cls id).map (fun c => { c with files := [] }) :=
    jget_map_snd cls (fun c => { c with files := [] }) id
  have hm : (jget (cls.map (fun e => (e.1, { e.2 with files := ([] : List P4File) }))) id).isSome := by
    rw [hmap]
    cases hg : jget cls id with
    | none => rw [hg] at h; simp at h
    | some c => rfl
  rw [prepCls, ensureDefaultChangelist]
  cases hg2 : jget (cls.map (fun e => (e.1, { e.2 with files := ([] : List P4File) }))) "default" with
  | none => exact isSome_jget_jset _ _ _ _ hm
  | some d => exact isSome_jget_jset _ _ _ _ hm

theorem prepCls_default_isSome (opts : P4Options) (cls : List (String × P4Changelist)) :
    (jget (prepCls opts cls) "default").isSome := by
  rw [prepCls, ensureDefaultChangelist]
  cases hg : jget (cls.map (fun e => (e.1, { e.2 with files := [] }))) "default" with
  | none => rw [jget_jset_self]; rfl
  | some d => rw [jget_jset_self]; rfl

theorem updateChangelists_isSome (cls : List (String × P4Changelist))
    (newChanges : List P4Changelist) (id : String) (h : (jget cls id).isSome) :
    (jget (updateChangelists cls newChanges).cls id).isSome := by
  rw [updateChangelists]
  refine @foldl_preserves UpdClOut P4Changelist
    (fun st => (jget st.cls id).isSome = true) _ ?_ newChanges _ h
  intro st c hst
  cases hg : jget st.cls c.id with
  | some ex =>
    simp only [hg]
    exact isSome_jget_jset _ _ _ _ hst
  | none =>
    simp only [hg]
    exact isSome_jget_jset _ _ _ _ hst

theorem reassocStep_cases (opts : P4Options) (st : ReassocOut) (file : P4File) :
    ((reassocStep opts st file).keys = st.keys ∧ (reassocStep opts st file).synth = st.synth) ∨
      ((reassocStep opts st file).keys = insertSet st.keys file.changelist ∧
        (reassocStep opts st file).synth = st.synth ++ [file.changelist]) := by
  rw [reassocStep]
  cases jget st.cls file.changelist with
  | some c => exact Or.inl ⟨rfl, rfl⟩
  | none => exact Or.inr ⟨rfl, rfl⟩

theorem reassoc_keys_mono (opts : P4Options) :
    ∀ (fs : List P4File) (st : ReassocOut) (id : String),
      id ∈ st.keys → id ∈ (fs.foldl (reassocStep opts) st).keys := by
  intro fs st id h
  refine @foldl_preserves ReassocOut P4File (fun st => id ∈ st.keys) _ ?_ fs _ h
  intro st' f hst
  rcases reassocStep_cases opts st' f with ⟨hc, _⟩ | ⟨hc, _⟩
  · rw [hc]; exact hst
  · rw [hc, mem_insertSet]; exact Or.inl hst

theorem reassoc_cls_isSome (opts : P4Options) :
    ∀ (fs : List P4File) (st : ReassocOut) (id : String),
      (jget st.cls id).isSome → (jget (fs.foldl (reassocStep opts) st).cls id).isSome := by
  intro fs st id h
  refine @foldl_preserves ReassocOut P4File (fun st => (jget st.cls id).isSome = true) _ ?_ fs _ h
  intro st' f hst
  rw [reassocStep]
  cases hg : jget st'.cls f.changelist with
  | some c => exact isSome_jget_jset _ _ _ _ hst
  | none => exact isSome_jget_jset _ _ _ _ hst

theorem reassoc_synth_suffix (opts : P4Options) :
    ∀ (fs : List P4File) (st : ReassocOut),
      ∃ d, (fs.foldl (reassocStep opts) st).synth = st.synth ++ d := by
  intro fs
  induction fs with
  | nil => exact fun st => ⟨[], by simp⟩
  | cons f rest ih =>
    intro st
    rw [List.foldl_cons]
    rcases ih (reassocStep opts st f) with ⟨d, hd⟩
    rcases reassocStep_cases opts st f with ⟨_, hc⟩ | ⟨_, hc⟩
    · exact ⟨d, by rw [hd, hc]⟩
    · exact ⟨[f.changelist] ++ d, by rw [hd, hc, List.append_assoc]⟩

theorem reassoc_keys_subset (opts : P4Options) :
    ∀ (fs : List P4File) (st : ReassocOut) (id : String),
      id ∈ (fs.foldl (reassocStep opts) st).keys →
      id ∈ st.keys ∨ id ∈ (fs.foldl (reassocStep opts) st).synth := by
  intro fs
  induction fs with
  | nil => exact fun st id h => Or.inl h
  | cons f rest ih =>
    intro st id h
    rw [List.foldl_cons] at h ⊢
    rcases ih _ id h with hk | hs
    · rcases reassocStep_cases opts st f with ⟨hck, _⟩ | ⟨hck, hcs⟩
      · rw [hck] at hk
        exact Or.inl hk
      · rw [hck, mem_insertSet] at hk
        rcases hk with hk | rfl
        · exact Or.inl hk
        · refine Or.inr ?_
          rcases reassoc_synth_suffix opts rest (reassocStep opts st f) with ⟨d, hd⟩
          rw [hd, hcs]
          simp
    · exact Or.inr hs

theorem reassoc_synth_subset (opts : P4Options) :
    ∀ (fs : List P4File) (st : ReassocOut) (id : String),
      id ∈ (fs.foldl (reassocStep opts) st).synth →
      id ∈ st.synth ∨ id ∈ (fs.foldl (reassocStep opts) st).keys := by
  intro fs
  induction fs with
  | nil => exact fun st id h => Or.inl h
  | cons f rest ih =>
    intro st id h
    rw [List.foldl_cons] at h ⊢
    rcases ih _ id h with hs | hk
    · rcases reassocStep_cases opts st f with ⟨_, hcs⟩ | ⟨hck, hcs⟩
      · rw [hcs] at hs
        exact Or.inl hs
      · rw [hcs] at hs
        rcases List.mem_append.mp hs with hs | hs
        · exact Or.inl hs
        · rw [List.mem_singleton] at hs
          subst hs
          refine Or.inr (reassoc_keys_mono opts rest _ _ ?_)
          rw [hck, mem_insertSet]
          exact Or.inr rfl
    · exact Or.inr hk

/-! ## Fixtures for witnesses and counterexamples -/

/-- Options with neither `P4USER` nor `P4CLIENT` configured. -/
def optsNone : P4Options :=
  { P4USER := none, P4CLIENT := none }

/-- An environment in which every collaborator call fails. -/
def envAllFail : P4Env :=
  { opened := .error "CommandFailed"
    status := .error "CommandFailed"
    changes := .error "CommandFailed"
    describe := fun _ => .error "CommandFailed"
    getLocalPath := fun _ => .error "CommandFailed" }

/-- An environment in which every query succeeds with no output. -/
def envQuiet : P4Env :=
  { opened := .ok none
    status := .ok none
    changes := .ok none
    describe := fun _ => .ok none
    getLocalPath := fun _ => .ok none }

/-- A plain file fixture with the given key, paths and changelist id. -/
def mkPlainFile (u : PUri) (dp cp cl : String) : P4File :=
  { uri := u, depotPath := dp, clientPath := cp, localPath := none, status := some "edit",
    action := some "edit", changelist := cl, revision := none, headRevision := none,
    haveRevision := none, type := none, user := none, client := none, diffStatus := none,
    isShelved := none, shelvedInChangelist := none }

/-- A pending changelist fixture with the given id. -/
def mkPendingCl (i : String) : P4Changelist :=
  { id := i, description := "d", user := "u", client := "c", status := "pending",
    files := [], hasShelvedFiles := some false, isRestricted := some false }

/-- A state busy with a running cycle. -/
def stBusy : RepoState :=
  { files := [], changelists := [], isUpdating := true }

/-- An idle, empty state. -/
def stIdleEmpty : RepoState :=
  { files := [], changelists := [], isUpdating := false }

/-! ## The claims -/

/-- C8: a normalizer that receives a non-array top level fails with the
invalid-data-format error (`parseOpenedOutput`, `parseStatusOutput` and
`parseChangesOutput` all throw rather than returning an empty list), while
the shared helper `processP4Result` catches any parse failure and degrades
that source's contribution to zero records, so the cycle is not aborted. -/
theorem C8_shape_error_and_degrade :
    (parseOpenedOutput PData.scalar =
        Except.error "Invalid data format received from p4 opened -G") ∧
      (parseStatusOutput PData.scalar =
        Except.error "Invalid data format received from p4 status -G") ∧
      (parseChangesOutput PData.scalar =
        Except.error "Invalid data format received from p4 changes -G") ∧
      ∀ (T : Type) (parse : PData → Except String (List T)) (d : PData) (e : String),
        parse d = Except.error e → processP4Result (some d) parse = [] := by
  refine ⟨rfl, rfl, rfl, fun T parse d e h => ?_⟩
  simp only [processP4Result, h]

/-- Witness for C8 at a concrete input: the opened normalizer's shape
error is degraded to zero records by the shared helper. -/
theorem C8_witness : processP4Result (some PData.scalar) parseOpenedOutput = [] :=
  C8_shape_error_and_degrade.2.2.2 P4File parseOpenedOutput PData.scalar
    "Invalid data format received from p4 opened -G" rfl

/-- C5: the refresh is single-flight — a call made while `isUpdating` is
set returns the state untouched, fires no notification, and its result
does not depend on the environment at all (no queries are consulted). -/
theorem C5_single_flight (opts opts' : P4Options) (env env' : P4Env) (s : RepoState)
    (h : s.isUpdating = true) :
    updateStateT opts env s = { state := s, fired := false, trace := none } ∧
      updateStateT opts env s = updateStateT opts' env' s := by
  constructor
  · rw [updateStateT, if_pos h]
  · rw [updateStateT, if_pos h, updateStateT, if_pos h]

/-- Witness for C5: a concrete busy state is returned untouched, and the
dropped call cannot tell a quiet environment from an all-failing one. -/
theorem C5_witness :
    updateStateT optsNone envQuiet stBusy = { state := stBusy, fired := false, trace := none } ∧
      updateStateT optsNone envQuiet stBusy = updateStateT optsNone envAllFail stBusy :=
  C5_single_flight optsNone optsNone envQuiet envAllFail stBusy rfl

/-- C3: when the guarded cycle aborts (a primary query failed), the call
keeps whatever store the cycle had reached, does not fire the change
notification, and resets the busy flag so a later refresh is accepted. -/
theorem C3_error_keeps_store (opts : P4Options) (env : P4Env) (s : RepoState) (st : StoreSnap)
    (h1 : s.isUpdating = false)
    (h2 : runCycle opts env (prepCls opts s.changelists) (prevKeysOf s) = .error st) :
    updateStateT opts env s =
      { state := { files := st.files, changelists := st.changelists, isUpdating := false }
        fired := false
        trace := none } := by
  rw [updateStateT, if_neg (by rw [h1]; exact Bool.false_ne_true), h2]

/-- Witness for C3: with every query failing, the cycle aborts right after
preparation; the store keeps the prepared changelist map (files cleared,
default ensured), nothing fires, and the state is idle again. -/
theorem C3_witness :
    updateStateT optsNone envAllFail stIdleEmpty =
      { state := { files := [], changelists := prepCls optsNone [], isUpdating := false }
        fired := false
        trace := none } :=
  C3_error_keeps_store optsNone envAllFail stIdleEmpty
    { files := [], changelists := prepCls optsNone [] } rfl rfl

/-- A status record carrying an explicit changelist id for a key that is
not in the file map. -/
def statusRec7 : PData :=
  .arr [.obj [("clientFile", "/ws/n"), ("status", "edit"), ("action", "edit"), ("change", "7")]]

/-- Counterexample to C2 as stated: a status record whose key is new is
inserted owned by the changelist id carried by the record — here `"7"` —
not by the default changelist. -/
theorem C2_counterexample :
    (jget ((processP4Result (some statusRec7) parseStatusOutput).foldl mergeStatusFile [])
        (PUri.perforce "/ws/n")).map (fun f => f.changelist) = some "7" ∧
      (jget ((processP4Result (some statusRec7) parseStatusOutput).foldl mergeStatusFile [])
        (PUri.perforce "/ws/n")).map (fun f => f.changelist) ≠ some "default" :=
  ⟨rfl, by decide⟩

/-- C2 as amended: in the status-merge step, an existing key takes
`status`/`action`/`diffStatus` from the status record, fills
`depotPath`/`clientPath` when empty and the remaining fields when absent,
and never changes `changelist`; other keys are untouched; a new key
inserts the status file as parsed — owned by the changelist id the record
carries (`change`, else `otherChange`, else `"default"`). -/
theorem C2_status_merge_policy (m : List (PUri × P4File)) (sf : P4File) :
    (∀ ex, jget m sf.uri = some ex →
      jget (mergeStatusFile m sf) sf.uri =
        some { ex with
          status := sf.status, action := sf.action, diffStatus := sf.diffStatus,
          depotPath := if ex.depotPath = "" then sf.depotPath else ex.depotPath,
          clientPath := if ex.clientPath = "" then sf.clientPath else ex.clientPath,
          user := ex.user.or sf.user, client := ex.client.or sf.client,
          revision := ex.revision.or sf.revision,
          headRevision := ex.headRevision.or sf.headRevision,
          haveRevision := ex.haveRevision.or sf.haveRevision,
          type := ex.type.or sf.type }) ∧
      (∀ ex, jget m sf.uri = some ex →
        (jget (mergeStatusFile m sf) sf.uri).map (fun f => f.changelist) = some ex.changelist) ∧
      (jget m sf.uri = none → jget (mergeStatusFile m sf) sf.uri = some sf) ∧
      (∀ k, k ≠ sf.uri → jget (mergeStatusFile m sf) k = jget m k) ∧
      ∀ fields f, statusRecordToFile (PVal.obj fields) = some f →
        f.changelist = (getF fields "change").getD ((getF fields "otherChange").getD "default") := by
  refine ⟨?_, ?_, ?_, ?_, ?_⟩
  · intro ex h
    simp only [mergeStatusFile, h]
    rw [jget_jset_self]
  · intro ex h
    simp only [mergeStatusFile, h]
    rw [jget_jset_self]
    rfl
  · intro h
    simp only [mergeStatusFile, h]
    rw [jget_jset_self]
  · intro k hk
    rw [mergeStatusFile]
    cases jget m sf.uri with
    | some ex => exact jget_jset_ne _ _ _ _ hk
    | none => exact jget_jset_ne _ _ _ _ hk
  · intro fields f h
    rw [statusRecordToFile] at h
    by_cases hg : (truthyF fields "clientFile").isNone ∧ (truthyF fields "depotFile").isNone
    · rw [if_pos hg] at h
      cases h
    · rw [if_neg hg] at h
      cases hp : (truthyF fields "clientFile").or (truthyF fields "depotFile") with
      | none =>
        simp only [hp] at h
        exact Option.noConfusion h
      | some p =>
        simp only [hp] at h
        injection h with h
        subst h
        rfl

/-- The file parsed from `statusRec7`, used to exercise the new-key branch
of the merge. -/
def sfNew7 : P4File :=
  { uri := .perforce "/ws/n", depotPath := "", clientPath := "/ws/n", localPath := none,
    status := some "edit", action := some "edit", changelist := "7", revision := none,
    headRevision := none, haveRevision := none, type := none, user := none, client := none,
    diffStatus := none, isShelved := some false, shelvedInChangelist := none }

/-- Witness for C2 (amended): merging a status file into an empty map
inserts it unchanged under its placeholder key. -/
theorem C2_witness : jget (mergeStatusFile [] sfNew7) sfNew7.uri = some sfNew7 :=
  (C2_status_merge_policy [] sfNew7).2.2.1 rfl

/-- A status record carrying both a workspace path and a depot path. -/
def statusRecBoth : PData :=
  .arr [.obj [("clientFile", "/ws/f"), ("depotFile", "//d/f"), ("status", "edit"),
    ("action", "edit")]]

/-- Counterexample to C6 as stated: a status record that carries both
paths derives its placeholder key from the workspace (client) path, not
from the depot path. -/
theorem C6_counterexample :
    (processP4Result (some statusRecBoth) parseStatusOutput).map (fun f => f.uri) =
        [PUri.perforce "/ws/f"] ∧
      PUri.perforce "/ws/f" ≠ PUri.perforce "//d/f" :=
  ⟨rfl, by decide⟩

/-- C6 as amended: a status record derives its placeholder key from the
workspace (client) path when that is truthy and falls back to the depot
path only when it is not; an opened record derives its key from the
record's `depotPath` field — which the opened query shape does not carry
(the depot path arrives in `depotFile`) — so the rendered key is
`perforce:undefined` for every real opened record. -/
theorem C6_placeholder_keys :
    (∀ fields f, openedRecordToFile (PVal.obj fields) = some f →
      f.uri = PUri.perforce ((getF fields "depotPath").getD "undefined")) ∧
      (∀ fields f c, truthyF fields "clientFile" = some c →
        statusRecordToFile (PVal.obj fields) = some f → f.uri = PUri.perforce c) ∧
      ∀ fields f dp, truthyF fields "clientFile" = none →
        truthyF fields "depotFile" = some dp →
        statusRecordToFile (PVal.obj fields) = some f → f.uri = PUri.perforce dp := by
  refine ⟨?_, ?_, ?_⟩
  · intro fields f h
    rw [openedRecordToFile] at h
    cases h1 : truthyF fields "depotFile" with
    | none =>
      simp only [h1] at h
      exact Option.noConfusion h
    | some dpf =>
      cases h2 : truthyF fields "action" with
      | none =>
        simp only [h1, h2] at h
        exact Option.noConfusion h
      | some act =>
        cases h3 : truthyF fields "clientFile" with
        | none =>
          simp only [h1, h2, h3] at h
          exact Option.noConfusion h
        | some cp =>
          simp only [h1, h2, h3] at h
          injection h with h
          subst h
          rfl
  · intro fields f c hc h
    rw [statusRecordToFile] at h
    rw [if_neg (by rw [hc]; simp)] at h
    simp only [hc, Option.or] at h
    injection h with h
    subst h
    rfl
  · intro fields f dp hc hdp h
    rw [statusRecordToFile] at h
    rw [if_neg (by rw [hdp]; simp)] at h
    simp only [hc, hdp, Option.or] at h
    injection h with h
    subst h
    rfl

/-- The fields of a status record exercising the client-path key rule. -/
def c6fields : List (String × String) :=
  [("clientFile", "/ws/w"), ("depotFile", "//d/w"), ("status", "edit"), ("action", "edit")]

/-- The file parsed from `c6fields`. -/
def c6file : P4File :=
  { uri := .perforce "/ws/w", depotPath := "//d/w", clientPath := "/ws/w", localPath := none,
    status := some "edit", action := some "edit", changelist := "default", revision := none,
    headRevision := none, haveRevision := none, type := none, user := none, client := none,
    diffStatus := none, isShelved := some false, shelvedInChangelist := none }

/-- Witness for C6 (amended) at a concrete record with both paths. -/
theorem C6_witness : c6file.uri = PUri.perforce "/ws/w" :=
  C6_placeholder_keys.2.1 c6fields c6file "/ws/w" rfl rfl

theorem jget_foldl_jset_nmem {κ : Type u} {β : Type v} [DecidableEq κ] (g : κ → β) :
    ∀ (l : List κ) (m : List (κ × β)) (q : κ), q ∉ l →
      jget (l.foldl (fun m' cp => jset m' cp (g cp)) m) q = jget m q := by
  intro l
  induction l with
  | nil => intro m q _; rfl
  | cons a t ih =>
    intro m q hq
    rw [List.foldl_cons]
    have hqa : q ≠ a := fun h => hq (h ▸ List.mem_cons_self _ _)
    rw [ih _ q (fun h => hq (List.mem_cons_of_mem _ h)), jget_jset_ne _ _ _ _ hqa]

theorem jget_foldl_jset_mem {κ : Type u} {β : Type v} [DecidableEq κ] (g : κ → β) :
    ∀ (l : List κ), l.Nodup → ∀ (m : List (κ × β)) (q : κ), q ∈ l →
      jget (l.foldl (fun m' cp => jset m' cp (g cp)) m) q = some (g q) := by
  intro l
  induction l with
  | nil =>
    intro _ m q hq
    simp at hq
  | cons a t ih =>
    intro hnd m q hq
    obtain ⟨ha, ht⟩ := List.nodup_cons.mp hnd
    rw [List.foldl_cons]
    rcases List.mem_cons.mp hq with rfl | hq
    · rw [jget_foldl_jset_nmem g t _ q ha, jget_jset_self]
    · exact ih ht _ q hq

/-- C9: path resolution deduplicates its inputs — a nonempty workspace
path shared by any number of files occurs exactly once in the list of
unique paths the resolution queries are issued for — and each unique
path's entry in the resolved-path map is exactly the (caught) outcome of
its own resolution call, so one path's failure cannot disturb another
path's result; moreover only actual nonempty workspace paths of the files
are ever queried. -/
theorem C9_dedup_isolation (files : List P4File) (r : String → Except String (Option String))
    (p : String) (h1 : p ≠ "") (h2 : p ∈ files.map (fun f => f.clientPath)) :
    (ucpOfFiles files).count p = 1 ∧
      (∀ q ∈ ucpOfFiles files, jget (buildRPM r (ucpOfFiles files)) q = some (catchResolve r q)) ∧
      ∀ q ∈ ucpOfFiles files, q ≠ "" ∧ ∃ f ∈ files, f.clientPath = q := by
  refine ⟨?_, ?_, ?_⟩
  · rw [ucpOfFiles]
    exact count_dedupFirst_eq_one _ _ (List.mem_filter.mpr ⟨h2, by simpa using h1⟩)
  · intro q hq
    rw [buildRPM]
    exact jget_foldl_jset_mem (catchResolve r) _ (nodup_dedupFirst _) _ q hq
  · intro q hq
    rw [ucpOfFiles, mem_dedupFirst, List.mem_filter] at hq
    obtain ⟨hmap, hne⟩ := hq
    rcases List.mem_map.mp hmap with ⟨f, hf, rfl⟩
    exact ⟨by simpa using hne, f, hf, rfl⟩

/-- Five placeholder files sharing the workspace path `/a/b`. -/
def sharedPathFiles : List P4File :=
  [mkPlainFile (.perforce "//d/1") "//d/1" "/a/b" "default",
    mkPlainFile (.perforce "//d/2") "//d/2" "/a/b" "default",
    mkPlainFile (.perforce "//d/3") "//d/3" "/a/b" "default",
    mkPlainFile (.perforce "//d/4") "//d/4" "/a/b" "default",
    mkPlainFile (.perforce "//d/5") "//d/5" "/a/b" "default"]

/-- Witness for C9: five files sharing `/a/b` yield exactly one
resolution query, even with a failing resolver. -/
theorem C9_witness :
    (ucpOfFiles sharedPathFiles).count "/a/b" = 1 ∧
      (∀ q ∈ ucpOfFiles sharedPathFiles,
        jget (buildRPM (fun _ => .error "CommandFailed") (ucpOfFiles sharedPathFiles)) q =
          some (catchResolve (fun _ => .error "CommandFailed") q)) ∧
      ∀ q ∈ ucpOfFiles sharedPathFiles, q ≠ "" ∧ ∃ f ∈ sharedPathFiles, f.clientPath = q :=
  C9_dedup_isolation sharedPathFiles (fun _ => .error "CommandFailed") "/a/b" (by decide)
    (by decide)

/-- The opened record of the stale-changelist scenario: a file opened in
changelist `5`. -/
def openedRecStale : PVal :=
  .obj [("depotFile", "//d/a"), ("clientFile", "/ws/a"), ("action", "edit"), ("change", "5")]

/-- An environment whose opened query reports one file in changelist `5`,
whose pending-changelists query reports nothing, and whose resolution
succeeds. -/
def envStale : P4Env :=
  { opened := .ok (some (.arr [openedRecStale]))
    status := .ok (some (.arr []))
    changes := .ok (some (.arr []))
    describe := fun _ => .ok none
    getLocalPath := fun _ => .ok (some "/loc/a") }

/-- A state still holding changelist `5` from the previous cycle. -/
def stStale : RepoState :=
  { files := []
    changelists := [("default", mkPendingCl "default"), ("5", mkPendingCl "5")]
    isUpdating := false }

/-- C1 (failing input): a cycle that completes successfully — the
notification fires — yet leaves its only surviving file associated with
changelist id `5` while no changelist `5` exists in the map: the stale
entry from the previous cycle masks the placeholder synthesis during
re-association (the id is found, so it is not added to the protected set)
and is then pruned, leaving a dangling `changelistId`. -/
theorem C1_dangling_reference :
    (updateStateT optsNone envStale stStale).fired = true ∧
      (updateStateT optsNone envStale stStale).state.files.map (fun e => e.2.changelist) =
        ["5"] ∧
      jget (updateStateT optsNone envStale stStale).state.changelists "5" = none :=
  ⟨rfl, rfl, rfl⟩

/-- C4: on every completed cycle, the changelists that pruning removes
are exactly the non-default ids that were present at the start of the
cycle and were observed neither by the pending-changelists query
(`queryIds`) nor as a synthesized placeholder (`synthIds`); and the
default changelist is present in the map at the end of every completed
cycle. -/
theorem C4_prune_exact (opts : P4Options) (env : P4Env) (s : RepoState) (out : UpdateOut)
    (tr : CycleOk) (h1 : updateStateT opts env s = out) (h2 : out.trace = some tr) :
    (∀ id : String,
      ((jget tr.beforePrune id).isSome ∧ jget out.state.changelists id = none) ↔
        (id ≠ "default" ∧ id ∈ jkeys s.changelists ∧ id ∉ tr.queryIds ∧ id ∉ tr.synthIds)) ∧
      (jget out.state.changelists "default").isSome := by
  rw [updateStateT] at h1
  by_cases hb : s.isUpdating = true
  · rw [if_pos hb] at h1
    rw [← h1] at h2
    exact Option.noConfusion h2
  · rw [if_neg hb] at h1
    cases hrc : runCycle opts env (prepCls opts s.changelists) (prevKeysOf s) with
    | error st =>
      rw [hrc] at h1
      rw [← h1] at h2
      exact Option.noConfusion h2
    | ok r =>
      rw [hrc] at h1
      subst h1
      have h2' : (some r : Option CycleOk) = some tr := h2
      injection h2' with h2'
      subst h2'
      rw [runCycle] at hrc
      cases ho : env.opened with
      | error e =>
        simp only [ho] at hrc
        exact Except.noConfusion hrc
      | ok ro =>
        simp only [ho] at hrc
        cases hs : env.status with
        | error e =>
          simp only [hs] at hrc
          exact Except.noConfusion hrc
        | ok rs =>
          simp only [hs] at hrc
          cases hc : env.changes with
          | error e =>
            simp only [hc] at hrc
            exact Except.noConfusion hrc
          | ok rc =>
            simp only [hc] at hrc
            injection hrc with hrc
            subst hrc
            show (∀ id : String,
              ((jget (cycleRa opts env (prepCls opts s.changelists) ro rs rc).cls id).isSome ∧
                jget (pruneChangelists (prevKeysOf s)
                  (cycleRa opts env (prepCls opts s.changelists) ro rs rc).keys
                  (cycleRa opts env (prepCls opts s.changelists) ro rs rc).cls) id = none) ↔
                (id ≠ "default" ∧ id ∈ jkeys s.changelists ∧
                  id ∉ (cycleUpd (prepCls opts s.changelists) rc).keys ∧
                  id ∉ (cycleRa opts env (prepCls opts s.changelists) ro rs rc).synth)) ∧
              (jget (pruneChangelists (prevKeysOf s)
                (cycleRa opts env (prepCls opts s.changelists) ro rs rc).keys
                (cycleRa opts env (prepCls opts s.changelists) ro rs rc).cls) "default").isSome
            have hkeys_mono : ∀ id : String,
                id ∈ (cycleUpd (prepCls opts s.changelists) rc).keys →
                id ∈ (cycleRa opts env (prepCls opts s.changelists) ro rs rc).keys := by
              intro id hid
              rw [cycleRa, reassociate]
              exact reassoc_keys_mono opts _ _ id hid
            have hkeys_sub : ∀ id : String,
                id ∈ (cycleRa opts env (prepCls opts s.changelists) ro rs rc).keys →
                id ∈ (cycleUpd (prepCls opts s.changelists) rc).keys ∨
                  id ∈ (cycleRa opts env (prepCls opts s.changelists) ro rs rc).synth := by
              intro id hid
              rw [cycleRa, reassociate] at hid ⊢
              exact reassoc_keys_subset opts _ _ id hid
            have hsynth_sub : ∀ id : String,
                id ∈ (cycleRa opts env (prepCls opts s.changelists) ro rs rc).synth →
                id ∈ (cycleRa opts env (prepCls opts s.changelists) ro rs rc).keys := by
              intro id hid
              rw [cycleRa, reassociate] at hid ⊢
              rcases reassoc_synth_subset opts _ _ id hid with h | h
              · simp at h
              · exact h
            have hisSome : ∀ id : String, (jget s.changelists id).isSome →
                (jget (cycleRa opts env (prepCls opts s.changelists) ro rs rc).cls id).isSome := by
              intro id hid
              rw [cycleRa, reassociate]
              exact reassoc_cls_isSome opts _ _ id
                (updateChangelists_isSome _ _ id (prepCls_isSome opts _ id hid))
            have hdefSome :
                (jget (cycleRa opts env (prepCls opts s.changelists) ro rs rc).cls
                  "default").isSome := by
              rw [cycleRa, reassociate]
              exact reassoc_cls_isSome opts _ _ _
                (updateChangelists_isSome _ _ _ (prepCls_default_isSome opts s.changelists))
            constructor
            · intro id
              rw [jget_pruneChangelists]
              constructor
              · rintro ⟨hsome, hnone⟩
                by_cases hcond : id ∈ prevKeysOf s ∧
                    id ∉ (cycleRa opts env (prepCls opts s.changelists) ro rs rc).keys
                · obtain ⟨hprev, hcur⟩ := hcond
                  rw [prevKeysOf, List.mem_filter] at hprev
                  obtain ⟨hmem, hdef⟩ := hprev
                  refine ⟨by simpa using hdef, hmem, ?_, ?_⟩
                  · exact fun hq => hcur (hkeys_mono id hq)
                  · exact fun hsy => hcur (hsynth_sub id hsy)
                · rw [if_neg hcond] at hnone
                  rw [hnone] at hsome
                  exact Bool.noConfusion hsome
              · rintro ⟨hdef, hmem, hq, hsy⟩
                have hprev : id ∈ prevKeysOf s := by
                  rw [prevKeysOf, List.mem_filter]
                  exact ⟨hmem, by simpa using hdef⟩
                have hcur :
                    id ∉ (cycleRa opts env (prepCls opts s.changelists) ro rs rc).keys := by
                  intro hin
                  rcases hkeys_sub id hin with h | h
                  · exact hq h
                  · exact hsy h
                refine ⟨hisSome id ((mem_jkeys_iff_jget _ _).mp hmem), ?_⟩
                rw [if_pos ⟨hprev, hcur⟩]
            · rw [jget_pruneChangelists]
              have hnd : "default" ∉ prevKeysOf s := by
                rw [prevKeysOf, List.mem_filter]
                simp
              rw [if_neg (fun hcond => hnd hcond.1)]
              exact hdefSome

/-- The trace of the stale-changelist cycle. -/
def trStale : CycleOk :=
  cycleSuccess optsNone envStale (prepCls optsNone stStale.changelists) (prevKeysOf stStale)
    (some (.arr [openedRecStale])) (some (.arr [])) (some (.arr []))

/-- Witness for C4 at the stale-changelist cycle. -/
theorem C4_witness :
    (∀ id : String,
      ((jget trStale.beforePrune id).isSome ∧
        jget (updateStateT optsNone envStale stStale).state.changelists id = none) ↔
        (id ≠ "default" ∧ id ∈ jkeys stStale.changelists ∧ id ∉ trStale.queryIds ∧
          id ∉ trStale.synthIds)) ∧
      (jget (updateStateT optsNone envStale stStale).state.changelists "default").isSome :=
  C4_prune_exact optsNone envStale stStale (updateStateT optsNone envStale stStale) trStale
    rfl rfl

/-- Convenience introduction rule for `wfStore`, with decidable parts. -/
theorem wfStore_of_forall (m : List (PUri × P4File)) (h1 : ∀ e ∈ m, e.1 = e.2.uri)
    (h2 : (jkeys m).Nodup) (h3 : ∀ e ∈ m, isFileKey e.1 = false) : wfStore m :=
  ⟨h1, h2, h3⟩

/-- A file with an empty workspace path. -/
def cexEmptyFile : P4File := mkPlainFile (.perforce "//d/x") "//d/x" "" "default"

/-- Two files sharing the workspace path `/a`. -/
def cexA : P4File := mkPlainFile (.perforce "//d/a") "//d/a" "/a" "default"

/-- Second file sharing `/a` (distinct placeholder key). -/
def cexB : P4File := mkPlainFile (.perforce "//d/b") "//d/b" "/a" "default"

/-- A resolver mapping every path to `/loc/a`. -/
def cexResolver : String → Except String (Option String) := fun _ => .ok (some "/loc/a")

/-- Counterexample to C7 as stated: (i) when no file has a nonempty
workspace path the resolution step returns early, so a file with an empty
workspace path is NOT deleted; (ii) of two files whose paths both resolve
successfully to the same local path, the later one is not re-keyed under
the resolved URI — only the first survives. -/
theorem C7_counterexample :
    resolveFileUris cexResolver [(PUri.perforce "//d/x", cexEmptyFile)] =
        [(PUri.perforce "//d/x", cexEmptyFile)] ∧
      jget (resolveFileUris cexResolver [(PUri.perforce "//d/x", cexEmptyFile)])
        (PUri.perforce "//d/x") = some cexEmptyFile ∧
      jkeys (resolveFileUris cexResolver
        [(PUri.perforce "//d/a", cexA), (PUri.perforce "//d/b", cexB)]) =
        [PUri.file "/loc/a"] ∧
      (jget (resolveFileUris cexResolver
        [(PUri.perforce "//d/a", cexA), (PUri.perforce "//d/b", cexB)])
        (PUri.file "/loc/a")).map (fun f => f.depotPath) = some "//d/a" :=
  ⟨rfl, rfl, rfl, rfl⟩

/-- C7 as amended: when every file's workspace path is empty the step
returns early and the map is unchanged; otherwise every original
placeholder key is removed from the map, the entry under a resolved
`file:` key is exactly the first file (in map order) whose path resolved
to that local path — re-keyed with `localPath` set — and every surviving
key is a resolved `file:` key, so empty-path files, unresolved files and
later duplicates are dropped entirely. -/
theorem C7_resolution_rekey (r : String → Except String (Option String))
    (m : List (PUri × P4File)) (hwf : wfStore m) :
    ((∀ e ∈ m, e.2.clientPath = "") → resolveFileUris r m = m) ∧
      ((∃ e ∈ m, e.2.clientPath ≠ "") → ∀ e ∈ m, jget (resolveFileUris r m) e.1 = none) ∧
      (∀ lp : String,
        jget (resolveFileUris r m) (PUri.file lp) =
          ((m.map (·.2)).find? (fun f => decide (resOf (buildRPM r (ucpOf m)) f = some lp))).map
            (fun f => { f with uri := PUri.file lp, localPath := some lp })) ∧
      ∀ k ∈ jkeys (resolveFileUris r m), (∃ e ∈ m, e.2.clientPath ≠ "") →
        isFileKey k = true := by
  refine ⟨resolveFileUris_all_empty r m, ?_,
    fun lp => resolveFileUris_winner r m lp hwf, ?_⟩
  · intro hne e he
    exact resolveFileUris_old_keys_dead r m hwf hne e.1 (hwf.2.2 e he)
  · intro k hk hne
    cases hfk : isFileKey k with
    | true => rfl
    | false =>
      exfalso
      rw [mem_jkeys_iff_jget] at hk
      rw [resolveFileUris_old_keys_dead r m hwf hne k hfk] at hk
      exact Bool.noConfusion hk

/-- Witness for C7 (amended): the early-return branch at a concrete map
whose only file has an empty workspace path. -/
theorem C7_witness :
    resolveFileUris cexResolver [(PUri.perforce "//d/x", cexEmptyFile)] =
      [(PUri.perforce "//d/x", cexEmptyFile)] :=
  (C7_resolution_rekey cexResolver [(PUri.perforce "//d/x", cexEmptyFile)]
      (wfStore_of_forall _ (by decide) (by decide) (by decide))).1 (by decide)

/-- C10: if two files with distinct placeholder keys both resolve to the
same local path, the resolved key holds the first one processed (re-keyed,
with `localPath` set), the later one's key is gone from the map, and no
resolved local path is ever indexed by two entries. -/
theorem C10_first_wins (r : String → Except String (Option String))
    (m : List (PUri × P4File)) (lp : String) (f1 f2 : P4File) (hwf : wfStore m)
    (h1 : (m.map (·.2)).find? (fun f => decide (resOf (buildRPM r (ucpOf m)) f = some lp)) =
      some f1)
    (h2 : f2 ∈ m.map (·.2)) (h3 : resOf (buildRPM r (ucpOf m)) f2 = some lp)
    (_h4 : f2.uri ≠ f1.uri) :
    jget (resolveFileUris r m) (PUri.file lp) =
        some { f1 with uri := PUri.file lp, localPath := some lp } ∧
      jget (resolveFileUris r m) f2.uri = none ∧
      ∀ lp' : String,
        ((resolveFileUris r m).filter (fun e => decide (e.1 = PUri.file lp'))).length ≤ 1 := by
  have hne : ∃ e ∈ m, e.2.clientPath ≠ "" := by
    rcases List.mem_map.mp h2 with ⟨e, he, heq⟩
    refine ⟨e, he, ?_⟩
    intro hcpe
    rw [← heq] at h3
    rw [resOf, if_pos hcpe] at h3
    exact Option.noConfusion h3
  refine ⟨?_, ?_, ?_⟩
  · rw [resolveFileUris_winner r m lp hwf, h1]
    rfl
  · refine resolveFileUris_old_keys_dead r m hwf hne f2.uri ?_
    rcases List.mem_map.mp h2 with ⟨e, he, heq⟩
    rw [← heq, ← hwf.1 e he]
    exact hwf.2.2 e he
  · intro lp'
    exact length_filter_key_le_one _ (resolveFileUris_wf r m hwf).2 (PUri.file lp')

/-- Witness for C10: the two files sharing `/a` — the first is kept under
the resolved key, the second disappears. -/
theorem C10_witness :
    jget (resolveFileUris cexResolver
        [(PUri.perforce "//d/a", cexA), (PUri.perforce "//d/b", cexB)]) (PUri.file "/loc/a") =
        some { cexA with uri := PUri.file "/loc/a", localPath := some "/loc/a" } ∧
      jget (resolveFileUris cexResolver
        [(PUri.perforce "//d/a", cexA), (PUri.perforce "//d/b", cexB)]) cexB.uri = none ∧
      ∀ lp' : String,
        ((resolveFileUris cexResolver
          [(PUri.perforce "//d/a", cexA), (PUri.perforce "//d/b", cexB)]).filter
            (fun e => decide (e.1 = PUri.file lp'))).length ≤ 1 :=
  C10_first_wins cexResolver [(PUri.perforce "//d/a", cexA), (PUri.perforce "//d/b", cexB)]
    "/loc/a" cexA cexB (wfStore_of_forall _ (by decide) (by decide) (by decide)) (by decide)
    (by decide) (by decide) (by decide)
